import Mathlib

/-!
Verification of the quick-commit program (src/main.rs) against its
natural-language specification.  The Rust source is shallowly embedded:
each function of the program becomes a Lean function over an explicit
model of the git2 capability surface (status scan results, index state,
object store, configuration, stdin, process spawning), and each run
produces a trace of observable events together with a termination kind
(exit code or process abort).
-/

namespace QuickCommit

/-- Termination of a process in the model: an explicit exit code
(`std::process::exit` or falling off the end of `main`, which exits 0),
or an abort via a Rust panic (`unwrap` / `expect` on a failure). -/
inductive Term where
  | exit (n : Nat)
  | panicked
deriving DecidableEq, Repr

/-- Error codes of the modelled `git2::Error` values.  `unbornBranch`
models `git2::ErrorCode::UnbornBranch`, returned by `repo.head()` when the
current branch has no commit yet. -/
inductive ErrCode where
  | unbornBranch
  | notFound
  | config
  | generic
deriving DecidableEq, Repr

/-- A modelled `git2::Error`. -/
structure GitErr where
  code : ErrCode
deriving DecidableEq, Repr

/-- The subset of the `git2::Status` bit flags read by the program
(plus `ignored` and `conflicted`, which the program never tests).
`wt_*` are the working-tree (`WT_*`) bits, `index_*` the index bits.
An entry with all flags false models an unmodified path. -/
structure Status where
  index_new : Bool
  index_modified : Bool
  index_deleted : Bool
  wt_new : Bool
  wt_modified : Bool
  wt_deleted : Bool
  ignored : Bool
  conflicted : Bool
deriving DecidableEq, Repr

/-- The marker the program pushes into its `files` vector: `stage` reuses
the constants `git2::Status::INDEX_NEW` / `INDEX_MODIFIED` / `INDEX_DELETED`
as the classification kinds Added / Modified / Deleted. -/
inductive Marker where
  | INDEX_NEW
  | INDEX_MODIFIED
  | INDEX_DELETED
deriving DecidableEq, Repr

/-- One entry of `repo.statuses(...)`: raw path bytes (git2 paths are not
guaranteed to be UTF-8) and the status flags. -/
structure StatusEntry where
  path_bytes : List Nat
  status : Status
deriving DecidableEq, Repr

/-- Observable events of a run.  Events tagged with paths / ids record
repository interactions; `print_own` / `eprint` record console output of
the process that produced the trace. -/
inductive Event where
  | print_name
  | classified (p : String) (m : Marker)
  | index_add (p : String)
  | index_remove (p : String)
  | index_write
  | write_tree
  | report_no_changes
  | print_file (p : String) (m : Marker)
  | print_stats (ins del : Nat)
  | prompt
  | commit_created (id : Nat) (parents : List Nat) (msg : String)
  | ref_updated (id : Nat)
  | spawn_background
  | spawn_git_push
  | wait_child
  | print_own (s : String)
  | eprint (s : String)
deriving DecidableEq, Repr

/-! ### UTF-8 validation

`stage` decodes each status entry path with
`std::str::from_utf8(entry.path_bytes()).unwrap()`.  We model
`std::str::from_utf8` by a byte-level UTF-8 decoder with exactly the
validity rules of Rust/Unicode: shortest-form encodings only, no
surrogate code points, maximum scalar value 0x10FFFF. -/

/-- UTF-8 decoding loop.  `need` is the number of continuation bytes still
expected for the current scalar (0 when expecting a lead byte), `acc` the
scalar value accumulated so far, `lo`/`hi` the allowed range of the next
continuation byte (tightened after specific lead bytes, exactly as in the
Rust standard library's validation tables), `cs` the decoded characters in
reverse order. -/
def utf8Loop : List Nat → Nat → Nat → Nat → Nat → List Char → Option (List Char)
  | [], _, 0, _, _, cs => some cs.reverse
  | [], _, _ + 1, _, _, _ => none
  | b :: rest, _, 0, _, _, cs =>
    if b < 0x80 then utf8Loop rest 0 0 0 0 (Char.ofNat b :: cs)
    else if b < 0xC2 then none
    else if b ≤ 0xDF then utf8Loop rest (b - 0xC0) 1 0x80 0xBF cs
    else if b = 0xE0 then utf8Loop rest 0 2 0xA0 0xBF cs
    else if b = 0xED then utf8Loop rest 0xD 2 0x80 0x9F cs
    else if b ≤ 0xEF then utf8Loop rest (b - 0xE0) 2 0x80 0xBF cs
    else if b = 0xF0 then utf8Loop rest 0 3 0x90 0xBF cs
    else if b ≤ 0xF3 then utf8Loop rest (b - 0xF0) 3 0x80 0xBF cs
    else if b = 0xF4 then utf8Loop rest 4 3 0x80 0x8F cs
    else none
  | b :: rest, acc, n + 1, lo, hi, cs =>
    if lo ≤ b ∧ b ≤ hi then
      match n with
      | 0 => utf8Loop rest 0 0 0 0 (Char.ofNat (acc * 0x40 + (b - 0x80)) :: cs)
      | m + 1 => utf8Loop rest (acc * 0x40 + (b - 0x80)) m 0x80 0xBF cs
    else none

/-- Models `std::str::from_utf8`: `some` of the decoded string on valid
UTF-8 input, `none` on invalid input (on which the program's `.unwrap()`
panics). -/
def decodeUtf8 (bytes : List Nat) : Option String :=
  (utf8Loop bytes 0 0 0 0 []).map fun cs => String.mk cs

/-- Byte encoding of an ASCII string, used to build concrete status
entries. -/
def asciiBytes (s : String) : List Nat :=
  s.data.map Char.toNat

/-! ### Repository model

The staging area (index) is modelled as the ordered list of staged paths,
the object store as a list of commit objects addressed by position, and
the current branch tip as an optional commit id (`none` = unborn
branch). A tree snapshot is the list of paths the index held when
`write_tree` ran (blob contents live behind the external `diff_stats`
capability, see `World`). -/

/-- A commit object: its tree snapshot, parent commit ids, and message. -/
structure CommitObj where
  tree : List String
  parents : List Nat
  message : String
deriving DecidableEq, Repr

/-- Repository state: index (staging area), branch tip, object store. -/
structure Repo where
  index : List String
  head_tip : Option Nat
  commits : List CommitObj
deriving DecidableEq, Repr

/-- Models `index.add_path(path)`: stages the path (idempotent on
presence — re-adding an already staged path replaces its entry). -/
def addPath (index : List String) (p : String) : List String :=
  if p ∈ index then index else index ++ [p]

/-- Models `index.remove_path(path)`: unstages the path. -/
def removePath (index : List String) (p : String) : List String :=
  index.filter fun q => q != p

/-- Models `repo.find_commit(id)`: looks the id up in the object store. -/
def findCommit (r : Repo) (id : Nat) : Except GitErr CommitObj :=
  match r.commits.get? id with
  | some c => Except.ok c
  | none => Except.error ⟨ErrCode.notFound⟩

/-- Outcome of a Rust function returning `Result` whose body may also
panic: `ok` and `err` model `Ok` / `Err`, `panicked` models an
`unwrap`/`expect` abort inside the function. -/
inductive Outcome (α : Type) where
  | ok (a : α)
  | err (e : GitErr)
  | panicked
deriving DecidableEq, Repr

/-! ### Status classifier / index mutator (`stage`, main.rs lines 8–45) -/

/-- The match cascade of `stage` (main.rs lines 19–39): each arm tests
`status.intersects(...)` on a pair of flags, the first matching arm wins,
and the wildcard arm skips the entry. -/
def classifyEntry (s : Status) : Option Marker :=
  if s.index_new || s.wt_new then some Marker.INDEX_NEW
  else if s.index_modified || s.wt_modified then some Marker.INDEX_MODIFIED
  else if s.index_deleted || s.wt_deleted then some Marker.INDEX_DELETED
  else none

/-- The index mutation each match arm performs: `add_path` for the Added
and Modified arms, `remove_path` for the Deleted arm. -/
def applyMarker (index : List String) (p : String) : Marker → List String
  | Marker.INDEX_NEW => addPath index p
  | Marker.INDEX_MODIFIED => addPath index p
  | Marker.INDEX_DELETED => removePath index p

/-- The index-mutation event each match arm emits. -/
def markerEvent (p : String) : Marker → Event
  | Marker.INDEX_NEW => Event.index_add p
  | Marker.INDEX_MODIFIED => Event.index_add p
  | Marker.INDEX_DELETED => Event.index_remove p

/-- The `for entry in repo.statuses(...)` loop of `stage`, followed by the
single `index.write()` after the scan.  Each iteration first decodes the
path bytes (`from_utf8(...).unwrap()` — a panic on invalid UTF-8), then
runs the match cascade, pushing `(path, marker)` onto `files` before
mutating the index, exactly as the source orders those two statements. -/
def stageLoop : List StatusEntry → List String → List (String × Marker) →
    List Event → List Event × Outcome (List String × List (String × Marker))
  | [], index, files, evs => (evs ++ [Event.index_write], Outcome.ok (index, files))
  | e :: rest, index, files, evs =>
    match decodeUtf8 e.path_bytes with
    | none => (evs, Outcome.panicked)
    | some p =>
      match classifyEntry e.status with
      | none => stageLoop rest index files evs
      | some m =>
        stageLoop rest (applyMarker index p m) (files ++ [(p, m)])
          (evs ++ [Event.classified p m, markerEvent p m])

/-- Models `stage(repo)` (main.rs lines 8–45): `scan` is the outcome of
`repo.statuses(...)` and `index` the repository's staging area.  Returns
the events of the run and either the final index plus the reported
`files` vector, the propagated scan error, or a panic. -/
def stage (scan : Except GitErr (List StatusEntry)) (index : List String) :
    List Event × Outcome (List String × List (String × Marker)) :=
  match scan with
  | Except.error e => ([], Outcome.err e)
  | Except.ok entries => stageLoop entries index [] []

/-! ### Commit composer (`commit`, main.rs lines 47–80) -/

/-- The outcomes of `config.get_string("user.name")` and
`config.get_string("user.email")` from `Config::open_default()`. -/
structure Cfg where
  user_name : Except GitErr String
  user_email : Except GitErr String

/-- Models `commit(repo, message)` (main.rs lines 47–80): materializes the
index into a tree (`index.write_tree()`), resolves identity from
configuration, then resolves `repo.head()` — on `ErrorCode::UnbornBranch`
it creates a root commit with zero parents and returns `Ok`; on a live
head it creates a commit whose single parent is the head commit.  Both
`repo.commit(Some("HEAD"), ...)` calls append the new commit object and
advance the branch reference to it.  The new commit's id is the next
position in the object store. -/
def commitFn (cfg : Cfg) (r : Repo) (message : String) :
    List Event × Except GitErr Repo :=
  let tree := r.index
  match cfg.user_name with
  | Except.error e => ([Event.write_tree], Except.error e)
  | Except.ok _name =>
    match cfg.user_email with
    | Except.error e => ([Event.write_tree], Except.error e)
    | Except.ok _email =>
      match r.head_tip with
      | none =>
        let id := r.commits.length
        ([Event.write_tree, Event.commit_created id [] message, Event.ref_updated id],
         Except.ok { r with commits := r.commits ++ [⟨tree, [], message⟩],
                            head_tip := some id })
      | some tip =>
        match findCommit r tip with
        | Except.error e => ([Event.write_tree], Except.error e)
        | Except.ok _c =>
          let id := r.commits.length
          ([Event.write_tree, Event.commit_created id [tip] message,
            Event.ref_updated id],
           Except.ok { r with commits := r.commits ++ [⟨tree, [tip], message⟩],
                              head_tip := some id })

/-! ### Diff statistics (`lines`, main.rs lines 82–93) -/

/-- Models `lines(repo)` (main.rs lines 82–93): writes the staged tree,
then resolves `repo.head()?.peel_to_commit()?` — which propagates the
`UnbornBranch` error when no commit exists — and finally diffs the head
commit's tree against the staged tree.  The tree-to-tree diff itself is
delegated to git2, modelled by the external capability `ds` mapping the
two tree snapshots to `(insertions, deletions)`. -/
def lines (ds : List String → List String → Nat × Nat) (r : Repo) :
    List Event × Except GitErr (Nat × Nat) :=
  let tree := r.index
  match r.head_tip with
  | none => ([Event.write_tree], Except.error ⟨ErrCode.unbornBranch⟩)
  | some tip =>
    match findCommit r tip with
    | Except.error e => ([Event.write_tree], Except.error e)
    | Except.ok c =>
      let s := ds c.tree tree
      ([Event.write_tree], Except.ok (s.1, s.2))

/-! ### Push supervisor (`run_background_process`, main.rs lines 95–117) -/

/-- Environment of one background-push run: whether spawning `git push`
succeeds, whether waiting on the child succeeds, and the child's exit
status. -/
structure BgWorld where
  spawn_git_push_ok : Bool
  wait_ok : Bool
  push_success : Bool
deriving DecidableEq, Repr

/-- Models `run_background_process()` (main.rs lines 95–117): spawns
`git push` (on spawn failure: message to its own stderr and `exit(1)`),
waits on the child (`expect` — a panic on wait failure), and reports the
outcome only to its own output streams.  On a successful push the source
then runs `Command::new("\n").output().expect(...)`, which always fails
(no such program exists) and therefore panics.  `Except.ok ()` means the
function returned to its caller. -/
def run_background_process (b : BgWorld) : List Event × Except Term Unit :=
  if b.spawn_git_push_ok = false then
    ([Event.eprint "Unable to call git push"], Except.error (Term.exit 1))
  else if b.wait_ok = false then
    ([Event.spawn_git_push, Event.wait_child], Except.error Term.panicked)
  else if b.push_success = false then
    ([Event.spawn_git_push, Event.wait_child, Event.eprint "Error pushing code"],
     Except.ok ())
  else
    ([Event.spawn_git_push, Event.wait_child, Event.print_own "pushed code"],
     Except.error Term.panicked)

/-! ### `main` (main.rs lines 118–200) -/

/-- Result of the interactive message prompt (main.rs lines 180–186):
`io::stdin().read_line(...)` followed by `.trim()`.  `read_line` at
end-of-input returns `Ok(0)` leaving the buffer empty — it is not an
error — so `eof` yields the empty title; a genuine read error makes the
`.expect("Failed to read input")` panic, modelled by `none`. -/
inductive StdinRead where
  | line (s : String)
  | eof
  | ioError
deriving Repr

/-- Models Rust's `str::trim`: drops whitespace characters from both ends
of the string. -/
def rustTrim (s : String) : String :=
  String.mk
    (((s.data.dropWhile Char.isWhitespace).reverse.dropWhile Char.isWhitespace).reverse)

/-- The commit title obtained from the prompt, or `none` when the read
panics. -/
def readTitle : StdinRead → Option String
  | StdinRead.line s => some (rustTrim s)
  | StdinRead.eof => some ""
  | StdinRead.ioError => none

/-- Environment of one whole run: invocation mode (`RUN_BACKGROUND_TASK`),
background-push environment, result of `Repository::discover(".")`,
result of `repo.statuses(...)`, configuration identity, the git2
tree-to-tree diff capability, stdin behaviour at the prompt, and whether
spawning the background process succeeds. -/
structure World where
  run_background : Bool
  bg : BgWorld
  repo : Option Repo
  scan : Except GitErr (List StatusEntry)
  cfg : Cfg
  diff_stats : List String → List String → Nat × Nat
  stdin : StdinRead
  spawn_ok : Bool

/-- The tail of `main` after the prompt (main.rs lines 188–199): commit —
on failure an error message and `exit(1)` — then spawn the program's own
executable with `RUN_BACKGROUND_TASK=1` without waiting on it (`expect` —
panic if the spawn fails) and fall off the end of `main` (exit 0). -/
def afterPrompt (w : World) (repo1 : Repo) (title : String) :
    List Event × Term :=
  match commitFn w.cfg repo1 title with
  | (evs3, Except.error _) =>
    (evs3 ++ [Event.eprint "Error committing changes"], Term.exit 1)
  | (evs3, Except.ok _) =>
    if w.spawn_ok then (evs3 ++ [Event.spawn_background], Term.exit 0)
    else (evs3, Term.panicked)

/-- The part of `main` after a successful `stage` (main.rs lines 146–199):
short-circuit on an empty `files` vector ("No changes to commit", exit 0),
print the per-file lines, run `lines` — on failure an error message and
`exit(1)` — print the summary, prompt, read the title, and continue with
`afterPrompt`. -/
def afterStage (w : World) (repo1 : Repo) (files : List (String × Marker)) :
    List Event × Term :=
  if files = [] then ([Event.report_no_changes], Term.exit 0)
  else
    let filePrints := files.map fun pm => Event.print_file pm.1 pm.2
    match lines w.diff_stats repo1 with
    | (evs2, Except.error _) =>
      (filePrints ++ evs2 ++ [Event.eprint "Error reading git info"], Term.exit 1)
    | (evs2, Except.ok s) =>
      let pre2 := filePrints ++ evs2 ++ [Event.print_stats s.1 s.2, Event.prompt]
      match readTitle w.stdin with
      | none => (pre2, Term.panicked)
      | some title =>
        (pre2 ++ (afterPrompt w repo1 title).1, (afterPrompt w repo1 title).2)

/-- Models `main()` (main.rs lines 118–200).  With `RUN_BACKGROUND_TASK`
set it runs only the push step and exits 0.  Otherwise: discover the
repository (failure: message and `exit(1)`), print the repository name,
stage — a scan failure prints a message and exits 1, an invalid path
panics — and continue with `afterStage` on the repository whose index the
scan persisted. -/
def mainFn (w : World) : List Event × Term :=
  if w.run_background then
    match run_background_process w.bg with
    | (evs, Except.ok _) => (evs, Term.exit 0)
    | (evs, Except.error t) => (evs, t)
  else
    match w.repo with
    | none => ([Event.eprint "Error opening git repo"], Term.exit 1)
    | some repo =>
      match stage w.scan repo.index with
      | (evs1, Outcome.err _) =>
        (Event.print_name :: evs1 ++ [Event.eprint "Error staging files"],
         Term.exit 1)
      | (evs1, Outcome.panicked) => (Event.print_name :: evs1, Term.panicked)
      | (evs1, Outcome.ok (index1, files)) =>
        let r1 : Repo := { repo with index := index1 }
        (Event.print_name :: evs1 ++ (afterStage w r1 files).1,
         (afterStage w r1 files).2)

/-! ### Concrete fixtures used by witnesses and counterexamples -/

/-- Status value with no flag set (an unmodified path). -/
def stNone : Status := ⟨false, false, false, false, false, false, false, false⟩

/-- Status value of an untracked new file (`WT_NEW`). -/
def stWtNew : Status := { stNone with wt_new := true }

/-- Status value of a working-copy deletion (`WT_DELETED`). -/
def stWtDeleted : Status := { stNone with wt_deleted := true }

/-- A scan entry for a new file `a.txt`. -/
def entryA : StatusEntry := ⟨asciiBytes "a.txt", stWtNew⟩

/-- A repository with one root commit and a clean index. -/
def repoInit : Repo := ⟨[], some 0, [⟨[], [], "init"⟩]⟩

/-- A repository on an unborn branch (no commits). -/
def repoUnborn : Repo := ⟨[], none, []⟩

/-- Configuration with both identity keys set. -/
def cfgOk : Cfg := ⟨Except.ok "n", Except.ok "e"⟩

/-- A diff capability reporting one inserted line. -/
def dsOne : List String → List String → Nat × Nat := fun _ _ => (1, 0)

/-- An interactive world in which every step succeeds: one new file,
identity configured, a commit message typed at the prompt. -/
def wOk : World :=
  ⟨false, ⟨true, true, true⟩, some repoInit, Except.ok [entryA], cfgOk, dsOne,
   StdinRead.line "msg", true⟩

/-- `wOk`, but stdin reaches end-of-input at the prompt. -/
def wEof : World := { wOk with stdin := StdinRead.eof }

/-- `wOk`, but the only scan entry is an unmodified path: no relevant
changes. -/
def wNoChanges : World := { wOk with scan := Except.ok [⟨asciiBytes "b.txt", stNone⟩] }

/-- `wOk`, but `Repository::discover` fails. -/
def wNoRepo : World := { wOk with repo := none }

/-! ### Event classifications and result shapes used by the proofs -/

/-- Events the scan loop of `stage` emits before the index write. -/
def scanEvent : Event → Bool
  | Event.classified _ _ => true
  | Event.index_add _ => true
  | Event.index_remove _ => true
  | _ => false

/-- Events `stage` may emit at all. -/
def stageEvent : Event → Bool
  | Event.index_write => true
  | e => scanEvent e

/-- Events the commit-and-spawn phase (`afterPrompt`) may emit. -/
def commitPhaseEvent : Event → Bool
  | Event.write_tree => true
  | Event.commit_created _ _ _ => true
  | Event.ref_updated _ => true
  | Event.spawn_background => true
  | Event.eprint _ => true
  | _ => false

/-- Events the whole post-stage part of `main` may emit. -/
def postStageEvent : Event → Bool
  | Event.print_file _ _ => true
  | Event.report_no_changes => true
  | Event.print_stats _ _ => true
  | Event.prompt => true
  | e => commitPhaseEvent e

/-- Events that mutate the repository (staging area, object store, or
references). -/
def repoMutation : Event → Bool
  | Event.index_add _ => true
  | Event.index_remove _ => true
  | Event.index_write => true
  | Event.commit_created _ _ _ => true
  | Event.ref_updated _ => true
  | _ => false

/-- The repository state `commit` leaves behind on success: the new
commit object appended to the store, the branch reference advanced. -/
def commitResult (r : Repo) (msg : String) (ps : List Nat) : Repo :=
  { r with commits := r.commits ++ [⟨r.index, ps, msg⟩], head_tip := some r.commits.length }

/-! ### Sanity checks on concrete runs -/

example : decodeUtf8 (asciiBytes "a.txt") = some "a.txt" := by decide
example : decodeUtf8 [0xFF] = none := by decide
example : decodeUtf8 [0xC3, 0xA9] = some "é" := by decide
example : decodeUtf8 [0xC0, 0x80] = none := by decide
example : decodeUtf8 [0xED, 0xA0, 0x80] = none := by decide

example : (mainFn wOk).2 = Term.exit 0 := by decide
example : (mainFn wNoRepo).2 = Term.exit 1 := by decide
example : (mainFn wNoChanges).2 = Term.exit 0 := by decide
example : Event.index_write ∈ (mainFn wNoChanges).1 := by decide
example : (mainFn wEof).2 = Term.exit 0 := by decide
example : Event.commit_created 1 [0] "" ∈ (mainFn wEof).1 := by decide
example :
    (mainFn wOk).1
      = [Event.print_name, Event.classified "a.txt" Marker.INDEX_NEW,
         Event.index_add "a.txt", Event.index_write,
         Event.print_file "a.txt" Marker.INDEX_NEW, Event.write_tree,
         Event.print_stats 1 0, Event.prompt, Event.write_tree,
         Event.commit_created 1 [0] "msg", Event.ref_updated 1,
         Event.spawn_background] := by decide

/-! ### Trace-shape lemmas -/

theorem scanEvent_markerEvent (p : String) (m : Marker) :
    scanEvent (markerEvent p m) = true := by
  cases m <;> rfl

/-- A successful scan's trace is the inherited prefix, then scan events
only, then exactly one `index_write` as the very last event. -/
theorem stageLoop_ok_shape :
    ∀ (entries : List StatusEntry) (index : List String)
      (files : List (String × Marker)) (evs evs' : List Event)
      (index' : List String) (files' : List (String × Marker)),
      stageLoop entries index files evs = (evs', Outcome.ok (index', files')) →
      ∃ delta, evs' = evs ++ delta ++ [Event.index_write] ∧
        ∀ ev ∈ delta, scanEvent ev = true := by
  intro entries
  induction entries with
  | nil =>
    intro index files evs evs' index' files' h
    simp only [stageLoop, Prod.mk.injEq, Outcome.ok.injEq] at h
    exact ⟨[], by simp [← h.1], by simp⟩
  | cons e rest ih =>
    intro index files evs evs' index' files' h
    rw [stageLoop] at h
    cases hd : decodeUtf8 e.path_bytes with
    | none => rw [hd] at h; simp at h
    | some p =>
      rw [hd] at h
      cases hc : classifyEntry e.status with
      | none =>
        rw [hc] at h
        exact ih _ _ _ _ _ _ h
      | some m =>
        rw [hc] at h
        obtain ⟨delta, hEq, hMem⟩ := ih _ _ _ _ _ _ h
        refine ⟨[Event.classified p m, markerEvent p m] ++ delta, ?_, ?_⟩
        · simp [hEq]
        · intro ev hev
          simp only [List.mem_append, List.mem_cons, List.mem_singleton] at hev
          rcases hev with (rfl | rfl | hfalse) | hev
          · rfl
          · exact scanEvent_markerEvent p m
          · simp at hfalse
          · exact hMem ev hev

/-- Every event a scan run emits is inherited or a stage event. -/
theorem stageLoop_events :
    ∀ (entries : List StatusEntry) (index : List String)
      (files : List (String × Marker)) (evs : List Event) (ev : Event),
      ev ∈ (stageLoop entries index files evs).1 →
      ev ∈ evs ∨ stageEvent ev = true := by
  intro entries
  induction entries with
  | nil =>
    intro index files evs ev h
    simp only [stageLoop, List.mem_append, List.mem_singleton] at h
    rcases h with h | rfl
    · exact Or.inl h
    · exact Or.inr rfl
  | cons e rest ih =>
    intro index files evs ev h
    rw [stageLoop] at h
    cases hd : decodeUtf8 e.path_bytes with
    | none => rw [hd] at h; exact Or.inl h
    | some p =>
      rw [hd] at h
      cases hc : classifyEntry e.status with
      | none => rw [hc] at h; exact ih _ _ _ _ h
      | some m =>
        rw [hc] at h
        rcases ih _ _ _ _ h with hmem | hst
        · simp only [List.mem_append, List.mem_cons, List.mem_singleton] at hmem
          rcases hmem with hmem | rfl | rfl | hfalse
          · exact Or.inl hmem
          · exact Or.inr rfl
          · exact Or.inr (by cases m <;> rfl)
          · simp at hfalse
        · exact Or.inr hst

/-- Every event `stage` emits is a stage event (classification,
index add/remove, or the index write). -/
theorem stage_events (scan : Except GitErr (List StatusEntry))
    (index : List String) (ev : Event) (h : ev ∈ (stage scan index).1) :
    stageEvent ev = true := by
  cases scan with
  | error e => simp [stage] at h
  | ok entries =>
    rcases stageLoop_events entries index [] [] ev h with hfalse | hst
    · simp at hfalse
    · exact hst

/-- `lines` always emits exactly the tree materialization event. -/
theorem lines_fst (ds : List String → List String → Nat × Nat) (r : Repo) :
    (lines ds r).1 = [Event.write_tree] := by
  unfold lines
  cases r.head_tip with
  | none => simp
  | some tip => rcases h : findCommit r tip with e | c <;> simp [h]

/-- `commitFn` either fails having only materialized the tree, or
succeeds with the commit-created and reference-updated events. -/
theorem commitFn_shape (cfg : Cfg) (r : Repo) (msg : String) :
    (∃ e, commitFn cfg r msg = ([Event.write_tree], Except.error e)) ∨
    ∃ ps, commitFn cfg r msg
      = ([Event.write_tree, Event.commit_created r.commits.length ps msg,
          Event.ref_updated r.commits.length], Except.ok (commitResult r msg ps)) := by
  unfold commitFn
  rcases hn : cfg.user_name with e | nm
  · exact Or.inl ⟨e, by simp⟩
  rcases he : cfg.user_email with e | em
  · exact Or.inl ⟨e, by simp⟩
  rcases ht : r.head_tip with _ | tip
  · exact Or.inr ⟨[], by simp [commitResult, ht]⟩
  rcases hf : findCommit r tip with e | c
  · exact Or.inl ⟨e, by simp [hf]⟩
  · exact Or.inr ⟨[tip], by simp [hf, commitResult, ht]⟩

/-! ### Claims -/

/-- C1: the claim states that with no prior commit the diff statistics
compare the staged tree against an empty tree and report
(insertions = added lines, deletions = 0) rather than failing.  The code
does the opposite: `lines` resolves `repo.head()?`, which on an unborn
branch propagates the `UnbornBranch` error, so on every repository with
no prior commit `lines` returns an error (and `main` then prints
"Error reading git info" and exits 1). -/
theorem c1_lines_fails_on_unborn (ds : List String → List String → Nat × Nat)
    (r : Repo) (h : r.head_tip = none) :
    lines ds r = ([Event.write_tree], Except.error ⟨ErrCode.unbornBranch⟩) := by
  simp [lines, h]

theorem c1_witness :
    lines dsOne ⟨["a.txt"], none, []⟩
      = ([Event.write_tree], Except.error ⟨ErrCode.unbornBranch⟩) :=
  c1_lines_fails_on_unborn dsOne ⟨["a.txt"], none, []⟩ rfl

/-- C2: the claim states that aborting the prompt via end-of-input leaves
the staging area persisted but uncommitted.  In the code,
`read_line` returns `Ok(0)` at end-of-input — not an error — so the run
does not abort: it proceeds and creates a commit with the empty message.
Evaluated at the failing input (`wEof`: one new file staged, stdin closed
at the prompt): the staging area is persisted (`index_write`), a commit
is nevertheless created with message `""`, and the process exits 0. -/
theorem c2_eof_still_commits :
    (mainFn wEof).2 = Term.exit 0 ∧
    Event.commit_created 1 [0] "" ∈ (mainFn wEof).1 ∧
    Event.index_write ∈ (mainFn wEof).1 := by decide

/-- C3: on an unborn branch `commit` creates a commit with zero parents
as a normal (`Ok`) path; with a live tip it creates a commit whose single
parent is the prior tip.  In both cases the branch reference is advanced
to the new commit (`commitResult` sets `head_tip` to the new id). -/
theorem c3_commit_parents (cfg : Cfg) (r : Repo) (msg nm em : String)
    (hn : cfg.user_name = Except.ok nm) (he : cfg.user_email = Except.ok em) :
    (r.head_tip = none →
      commitFn cfg r msg
        = ([Event.write_tree, Event.commit_created r.commits.length [] msg,
            Event.ref_updated r.commits.length],
           Except.ok (commitResult r msg []))) ∧
    (∀ tip, r.head_tip = some tip → tip < r.commits.length →
      commitFn cfg r msg
        = ([Event.write_tree, Event.commit_created r.commits.length [tip] msg,
            Event.ref_updated r.commits.length],
           Except.ok (commitResult r msg [tip]))) := by
  constructor
  · intro h
    simp [commitFn, hn, he, h, commitResult]
  · intro tip h hlt
    have hf : findCommit r tip = Except.ok (r.commits.get ⟨tip, hlt⟩) := by
      simp [findCommit, List.getElem?_eq_getElem hlt, List.get_eq_getElem]
    simp [commitFn, hn, he, h, hf, commitResult]

theorem c3_witness :
    commitFn cfgOk repoUnborn "m"
      = ([Event.write_tree, Event.commit_created 0 [] "m", Event.ref_updated 0],
         Except.ok (commitResult repoUnborn "m" [])) ∧
    commitFn cfgOk repoInit "m"
      = ([Event.write_tree, Event.commit_created 1 [0] "m", Event.ref_updated 1],
         Except.ok (commitResult repoInit "m" [0])) :=
  ⟨(c3_commit_parents cfgOk repoUnborn "m" "n" "e" rfl rfl).1 rfl,
   (c3_commit_parents cfgOk repoInit "m" "n" "e" rfl rfl).2 0 rfl (by decide)⟩

/-- C4: the classifier maps each status entry to at most one classified
change (the match arms are tried in order, first hit wins): new
(untracked or index-new) → Added and the path staged; otherwise modified
(working-copy or index) → Modified and the path re-staged; otherwise
deleted (working-copy or index) → Deleted and the path unstaged; any
other status is skipped — neither reported nor staged.  Stated on a
one-entry scan: the reported sequence and the final index in each case. -/
theorem c4_classifier (e : StatusEntry) (p : String) (index : List String)
    (hp : decodeUtf8 e.path_bytes = some p) :
    ((e.status.index_new || e.status.wt_new) = true →
      stage (Except.ok [e]) index
        = ([Event.classified p Marker.INDEX_NEW, Event.index_add p, Event.index_write],
           Outcome.ok (addPath index p, [(p, Marker.INDEX_NEW)]))) ∧
    ((e.status.index_new || e.status.wt_new) = false →
     (e.status.index_modified || e.status.wt_modified) = true →
      stage (Except.ok [e]) index
        = ([Event.classified p Marker.INDEX_MODIFIED, Event.index_add p, Event.index_write],
           Outcome.ok (addPath index p, [(p, Marker.INDEX_MODIFIED)]))) ∧
    ((e.status.index_new || e.status.wt_new) = false →
     (e.status.index_modified || e.status.wt_modified) = false →
     (e.status.index_deleted || e.status.wt_deleted) = true →
      stage (Except.ok [e]) index
        = ([Event.classified p Marker.INDEX_DELETED, Event.index_remove p, Event.index_write],
           Outcome.ok (removePath index p, [(p, Marker.INDEX_DELETED)]))) ∧
    ((e.status.index_new || e.status.wt_new) = false →
     (e.status.index_modified || e.status.wt_modified) = false →
     (e.status.index_deleted || e.status.wt_deleted) = false →
      stage (Except.ok [e]) index = ([Event.index_write], Outcome.ok (index, []))) := by
  refine ⟨fun h1 => ?_, fun h1 h2 => ?_, fun h1 h2 h3 => ?_, fun h1 h2 h3 => ?_⟩
  · simp [stage, stageLoop, hp, classifyEntry, h1, applyMarker, markerEvent]
  · simp [stage, stageLoop, hp, classifyEntry, h1, h2, applyMarker, markerEvent]
  · simp [stage, stageLoop, hp, classifyEntry, h1, h2, h3, applyMarker, markerEvent]
  · simp [stage, stageLoop, hp, classifyEntry, h1, h2, h3]

theorem c4_witness :
    stage (Except.ok [entryA]) []
      = ([Event.classified "a.txt" Marker.INDEX_NEW, Event.index_add "a.txt",
          Event.index_write],
         Outcome.ok (addPath [] "a.txt", [("a.txt", Marker.INDEX_NEW)])) :=
  (c4_classifier entryA "a.txt" [] (by decide)).1 (by decide)

/-- If any scan entry's path bytes are not valid UTF-8, the scan loop
reaches that entry (nothing before it can stop the loop other than an
earlier invalid path) and aborts by panic. -/
theorem stageLoop_panics :
    ∀ (entries : List StatusEntry) (index : List String)
      (files : List (String × Marker)) (evs : List Event),
      (∃ e ∈ entries, decodeUtf8 e.path_bytes = none) →
      (stageLoop entries index files evs).2 = Outcome.panicked := by
  intro entries
  induction entries with
  | nil => intro _ _ _ h; simp at h
  | cons e rest ih =>
    intro index files evs h
    rw [stageLoop]
    rcases hd : decodeUtf8 e.path_bytes with _ | p
    · simp
    · rcases h with ⟨e', he', hbad⟩
      rcases List.mem_cons.mp he' with rfl | hmem
      · rw [hd] at hbad; exact absurd hbad (by simp)
      · cases hc : classifyEntry e.status with
        | none => simp only; exact ih _ _ _ ⟨e', hmem, hbad⟩
        | some m => simp only; exact ih _ _ _ ⟨e', hmem, hbad⟩

/-- C10: `stage` decodes every entry path with
`std::str::from_utf8(...).unwrap()`; for a scan containing an entry whose
path bytes are not valid UTF-8 it terminates by panic instead of
returning an error value. -/
theorem c10_panic_on_invalid_path (entries : List StatusEntry)
    (index : List String)
    (hbad : ∃ e ∈ entries, decodeUtf8 e.path_bytes = none) :
    (stage (Except.ok entries) index).2 = Outcome.panicked := by
  simpa [stage] using stageLoop_panics entries index [] [] hbad

theorem c10_witness :
    (stage (Except.ok [⟨[0xFF], stWtNew⟩]) []).2 = Outcome.panicked :=
  c10_panic_on_invalid_path [⟨[0xFF], stWtNew⟩] []
    ⟨⟨[0xFF], stWtNew⟩, by simp, by decide⟩

theorem postStage_of_commitPhase (ev : Event) (h : commitPhaseEvent ev = true) :
    postStageEvent ev = true := by
  cases ev <;> simp_all [commitPhaseEvent, postStageEvent]

theorem mem_append_cases {α : Type} {P : α → Prop} {A B : List α}
    (hA : ∀ x ∈ A, P x) (hB : ∀ x ∈ B, P x) : ∀ x ∈ A ++ B, P x := by
  intro x hx
  rcases List.mem_append.mp hx with h | h
  · exact hA x h
  · exact hB x h

theorem filePrints_events (files : List (String × Marker)) :
    ∀ ev ∈ files.map fun pm => Event.print_file pm.1 pm.2,
      postStageEvent ev = true := by
  intro ev h
  rcases List.mem_map.mp h with ⟨pm, hpm, heq⟩
  rw [← heq]
  rfl

/-- Every event of the commit-and-spawn phase is a commit-phase event. -/
theorem afterPrompt_events (w : World) (r1 : Repo) (t : String) (ev : Event)
    (h : ev ∈ (afterPrompt w r1 t).1) : commitPhaseEvent ev = true := by
  unfold afterPrompt at h
  rcases commitFn_shape w.cfg r1 t with ⟨e, hc⟩ | ⟨ps, hc⟩ <;> rw [hc] at h
  · simp at h
    rcases h with rfl | rfl <;> rfl
  · by_cases hsp : w.spawn_ok <;> simp [hsp] at h
    · rcases h with rfl | rfl | rfl | rfl <;> rfl
    · rcases h with rfl | rfl | rfl <;> rfl

/-- Every event of the post-stage part of `main` is a post-stage event:
in particular neither an `index_write` nor a classification. -/
theorem afterStage_events (w : World) (r1 : Repo)
    (files : List (String × Marker)) :
    ∀ ev ∈ (afterStage w r1 files).1, postStageEvent ev = true := by
  have hone : ∀ ev ∈ [Event.write_tree], postStageEvent ev = true := by
    intro x hx; simp at hx; subst hx; rfl
  unfold afterStage
  by_cases hf : files = []
  · rw [if_pos hf]
    intro ev hev
    simp at hev
    subst hev
    rfl
  · rw [if_neg hf]
    rcases hl : lines w.diff_stats r1 with ⟨evs2, res⟩
    have hevs2 : evs2 = [Event.write_tree] := by
      have h2 := lines_fst w.diff_stats r1
      rw [hl] at h2
      exact h2
    subst hevs2
    cases res with
    | error e =>
      refine mem_append_cases (mem_append_cases (filePrints_events files) hone) ?_
      intro x hx; simp at hx; subst hx; rfl
    | ok s =>
      have hsp2 : ∀ ev ∈ [Event.print_stats s.1 s.2, Event.prompt],
          postStageEvent ev = true := by
        intro x hx
        simp at hx
        rcases hx with rfl | rfl <;> rfl
      rcases ht : readTitle w.stdin with _ | title
      · exact mem_append_cases (mem_append_cases (filePrints_events files) hone) hsp2
      · exact mem_append_cases
          (mem_append_cases (mem_append_cases (filePrints_events files) hone) hsp2)
          (fun ev hev => postStage_of_commitPhase ev (afterPrompt_events w r1 title ev hev))

/-- C5 (counterexample to the claim as stated): a run over a repository
with no relevant changes (one unmodified path) reports no changes and
exits 0 — but the staging-area write is still invoked: `stage` calls
`index.write()` unconditionally after the scan, so `index_write` is in
the trace, contradicting "without invoking the staging-area write". -/
theorem c5_counterexample :
    (mainFn wNoChanges).2 = Term.exit 0 ∧
    Event.report_no_changes ∈ (mainFn wNoChanges).1 ∧
    Event.index_write ∈ (mainFn wNoChanges).1 := by decide

/-- C5 (amended): with no relevant changes the run reports no changes and
exits 0 without materializing a staged tree, composing a commit, or
spawning the push supervisor; the staging-area write, however, is still
performed once by the scan. -/
theorem c5_no_changes (w : World) (r : Repo) (index1 : List String)
    (evs1 : List Event) (hbg : w.run_background = false) (hr : w.repo = some r)
    (hs : stage w.scan r.index = (evs1, Outcome.ok (index1, []))) :
    (mainFn w).2 = Term.exit 0 ∧
    Event.report_no_changes ∈ (mainFn w).1 ∧
    Event.index_write ∈ (mainFn w).1 ∧
    Event.write_tree ∉ (mainFn w).1 ∧
    (∀ id ps m, Event.commit_created id ps m ∉ (mainFn w).1) ∧
    Event.spawn_background ∉ (mainFn w).1 := by
  have hm : mainFn w
      = (Event.print_name :: evs1 ++ [Event.report_no_changes], Term.exit 0) := by
    simp [mainFn, hbg, hr, hs, afterStage]
  have hse : ∀ ev ∈ evs1, stageEvent ev = true := by
    intro ev hev
    refine stage_events w.scan r.index ev ?_
    rw [hs]
    exact hev
  have hiw : Event.index_write ∈ evs1 := by
    rcases hscan : w.scan with e | entries
    · rw [hscan] at hs; simp [stage] at hs
    · rw [hscan] at hs
      obtain ⟨delta, hEq, -⟩ := stageLoop_ok_shape entries r.index [] [] evs1 index1 [] hs
      simp [hEq]
  have hall : ∀ ev ∈ (mainFn w).1,
      ev = Event.print_name ∨ stageEvent ev = true ∨ ev = Event.report_no_changes := by
    rw [hm]
    intro ev hev
    rcases List.mem_cons.mp hev with h | h
    · exact Or.inl h
    rcases List.mem_append.mp h with h | h
    · exact Or.inr (Or.inl (hse _ h))
    · simp at h
      exact Or.inr (Or.inr h)
  refine ⟨by rw [hm], by rw [hm]; simp, by rw [hm]; simp [hiw], ?_, ?_, ?_⟩
  · intro hmm
    rcases hall _ hmm with h | h | h
    · exact Event.noConfusion h
    · simp [stageEvent, scanEvent] at h
    · exact Event.noConfusion h
  · intro id ps m hmm
    rcases hall _ hmm with h | h | h
    · exact Event.noConfusion h
    · simp [stageEvent, scanEvent] at h
    · exact Event.noConfusion h
  · intro hmm
    rcases hall _ hmm with h | h | h
    · exact Event.noConfusion h
    · simp [stageEvent, scanEvent] at h
    · exact Event.noConfusion h

theorem c5_witness :
    (mainFn wNoChanges).2 = Term.exit 0 ∧
    Event.write_tree ∉ (mainFn wNoChanges).1 ∧
    Event.spawn_background ∉ (mainFn wNoChanges).1 :=
  let h := c5_no_changes wNoChanges repoInit [] [Event.index_write] rfl rfl (by decide)
  ⟨h.1, h.2.2.2.1, h.2.2.2.2.2⟩

/-- C6: in every run whose scan completes, the classifier persists the
staging area exactly once (a single `index_write`), all classification
happens before that point, and no staged tree is materialized before it:
the whole trace splits around the unique `index_write`, with no tree
write before it and no classification after it. -/
theorem c6_persist_once (w : World) (r : Repo) (index1 : List String)
    (files : List (String × Marker)) (evs1 : List Event)
    (hbg : w.run_background = false) (hr : w.repo = some r)
    (hs : stage w.scan r.index = (evs1, Outcome.ok (index1, files))) :
    ∃ pre post, (mainFn w).1 = pre ++ Event.index_write :: post ∧
      Event.index_write ∉ pre ∧ Event.index_write ∉ post ∧
      Event.write_tree ∉ pre ∧
      ∀ p m, Event.classified p m ∉ post := by
  have hm : (mainFn w).1
      = Event.print_name :: evs1 ++ (afterStage w { r with index := index1 } files).1 := by
    simp [mainFn, hbg, hr, hs]
  rcases hscan : w.scan with e | entries
  · rw [hscan] at hs; simp [stage] at hs
  rw [hscan] at hs
  obtain ⟨delta, hEq, hMem⟩ := stageLoop_ok_shape entries r.index [] [] evs1 index1 files hs
  refine ⟨Event.print_name :: delta,
    (afterStage w { r with index := index1 } files).1, ?_, ?_, ?_, ?_, ?_⟩
  · rw [hm, hEq]; simp
  · simp only [List.mem_cons]
    rintro (h | h)
    · exact Event.noConfusion h
    · have h2 := hMem _ h; simp [scanEvent] at h2
  · intro h
    have h2 := afterStage_events w _ files _ h
    simp [postStageEvent, commitPhaseEvent] at h2
  · simp only [List.mem_cons]
    rintro (h | h)
    · exact Event.noConfusion h
    · have h2 := hMem _ h; simp [scanEvent] at h2
  · intro p m h
    have h2 := afterStage_events w _ files _ h
    simp [postStageEvent, commitPhaseEvent] at h2

theorem c6_witness :
    ∃ pre post, (mainFn wOk).1 = pre ++ Event.index_write :: post ∧
      Event.index_write ∉ pre ∧ Event.index_write ∉ post ∧
      Event.write_tree ∉ pre ∧
      ∀ p m, Event.classified p m ∉ post :=
  c6_persist_once wOk repoInit ["a.txt"] [("a.txt", Marker.INDEX_NEW)]
    [Event.classified "a.txt" Marker.INDEX_NEW, Event.index_add "a.txt",
     Event.index_write] rfl rfl (by decide)

/-- Either the commit-and-spawn phase spawns no background process, or
its trace ends with the reference update immediately followed by the
spawn. -/
theorem afterPrompt_shape (w : World) (r1 : Repo) (t : String) :
    Event.spawn_background ∉ (afterPrompt w r1 t).1 ∨
    ∃ Y id, (afterPrompt w r1 t).1
        = Y ++ [Event.ref_updated id, Event.spawn_background] ∧
      Event.spawn_background ∉ Y := by
  unfold afterPrompt
  rcases commitFn_shape w.cfg r1 t with ⟨e, hc⟩ | ⟨ps, hc⟩ <;> rw [hc]
  · left; simp
  · by_cases hsp : w.spawn_ok
    · right
      refine ⟨[Event.write_tree, Event.commit_created r1.commits.length ps t],
        r1.commits.length, ?_, ?_⟩
      · simp [hsp]
      · simp
    · left; simp [hsp]

/-- Either the post-stage part of `main` spawns no background process, or
its trace ends with the reference update immediately followed by the
spawn. -/
theorem afterStage_shape (w : World) (r1 : Repo)
    (files : List (String × Marker)) :
    Event.spawn_background ∉ (afterStage w r1 files).1 ∨
    ∃ Y id, (afterStage w r1 files).1
        = Y ++ [Event.ref_updated id, Event.spawn_background] ∧
      Event.spawn_background ∉ Y := by
  unfold afterStage
  by_cases hf : files = []
  · rw [if_pos hf]; left; simp
  · rw [if_neg hf]
    rcases hl : lines w.diff_stats r1 with ⟨evs2, res⟩
    have hevs2 : evs2 = [Event.write_tree] := by
      have h2 := lines_fst w.diff_stats r1
      rw [hl] at h2
      exact h2
    subst hevs2
    cases res with
    | error e => left; simp
    | ok s =>
      rcases ht : readTitle w.stdin with _ | title
      · left; simp
      · rcases afterPrompt_shape w r1 title with hno | ⟨Y, id, hY, hnY⟩
        · left
          intro hmm
          rcases List.mem_append.mp hmm with h | h
          · simp at h
          · exact hno h
        · right
          refine ⟨(files.map fun pm => Event.print_file pm.1 pm.2)
              ++ [Event.write_tree] ++ [Event.print_stats s.1 s.2, Event.prompt]
              ++ Y, id, ?_, ?_⟩
          · dsimp only
            rw [hY]
            simp
          · intro hmm
            rcases List.mem_append.mp hmm with h | h
            · simp at h
            · exact hnY h

/-- C7: in every interactive run, if the background-push process is
spawned at all, the spawn is the very last event of the run and is
immediately preceded by the branch-reference update — the commit is fully
durable before the spawn — and the interactive process never waits on any
child process. -/
theorem c7_spawn_after_commit (w : World) (hbg : w.run_background = false) :
    Event.wait_child ∉ (mainFn w).1 ∧
    (Event.spawn_background ∈ (mainFn w).1 →
      ∃ X id, (mainFn w).1 = X ++ [Event.ref_updated id, Event.spawn_background] ∧
        Event.spawn_background ∉ X) := by
  rcases hr : w.repo with _ | r
  · constructor
    · simp [mainFn, hbg, hr]
    · intro h; simp [mainFn, hbg, hr] at h
  rcases hst : stage w.scan r.index with ⟨evs1, out⟩
  have hse : ∀ ev ∈ evs1, stageEvent ev = true := by
    intro ev hev
    refine stage_events w.scan r.index ev ?_
    rw [hst]
    exact hev
  cases out with
  | err e =>
    have hm : (mainFn w).1
        = Event.print_name :: evs1 ++ [Event.eprint "Error staging files"] := by
      simp [mainFn, hbg, hr, hst]
    constructor
    · rw [hm]
      intro hmm
      rcases List.mem_cons.mp hmm with h | h
      · exact Event.noConfusion h
      rcases List.mem_append.mp h with h | h
      · have h2 := hse _ h; simp [stageEvent, scanEvent] at h2
      · simp at h
    · rw [hm]
      intro hmm
      exfalso
      rcases List.mem_cons.mp hmm with h | h
      · exact Event.noConfusion h
      rcases List.mem_append.mp h with h | h
      · have h2 := hse _ h; simp [stageEvent, scanEvent] at h2
      · simp at h
  | panicked =>
    have hm : (mainFn w).1 = Event.print_name :: evs1 := by
      simp [mainFn, hbg, hr, hst]
    constructor
    · rw [hm]
      intro hmm
      rcases List.mem_cons.mp hmm with h | h
      · exact Event.noConfusion h
      · have h2 := hse _ h; simp [stageEvent, scanEvent] at h2
    · rw [hm]
      intro hmm
      exfalso
      rcases List.mem_cons.mp hmm with h | h
      · exact Event.noConfusion h
      · have h2 := hse _ h; simp [stageEvent, scanEvent] at h2
  | ok pr =>
    obtain ⟨index1, files⟩ := pr
    have hm : (mainFn w).1 = Event.print_name :: evs1
        ++ (afterStage w { r with index := index1 } files).1 := by
      simp [mainFn, hbg, hr, hst]
    constructor
    · rw [hm]
      intro hmm
      rcases List.mem_cons.mp hmm with h | h
      · exact Event.noConfusion h
      rcases List.mem_append.mp h with h | h
      · have h2 := hse _ h; simp [stageEvent, scanEvent] at h2
      · have h2 := afterStage_events w _ files _ h
        simp [postStageEvent, commitPhaseEvent] at h2
    · intro hmm
      rw [hm] at hmm
      rcases afterStage_shape w { r with index := index1 } files
        with hno | ⟨Y, id, hY, hnY⟩
      · exfalso
        rcases List.mem_cons.mp hmm with h | h
        · exact Event.noConfusion h
        rcases List.mem_append.mp h with h | h
        · have h2 := hse _ h; simp [stageEvent, scanEvent] at h2
        · exact hno h
      · refine ⟨Event.print_name :: evs1 ++ Y, id, ?_, ?_⟩
        · rw [hm, hY]; simp
        · intro hmm2
          rcases List.mem_cons.mp hmm2 with h | h
          · exact Event.noConfusion h
          rcases List.mem_append.mp h with h | h
          · have h2 := hse _ h; simp [stageEvent, scanEvent] at h2
          · exact hnY h

theorem c7_witness :
    Event.wait_child ∉ (mainFn wOk).1 ∧
    (Event.spawn_background ∈ (mainFn wOk).1 →
      ∃ X id, (mainFn wOk).1 = X ++ [Event.ref_updated id, Event.spawn_background] ∧
        Event.spawn_background ∉ X) :=
  c7_spawn_after_commit wOk rfl

/-- C8: when the background push fails, the failure is reported only on
the background process's own output stream (an `eprint` in its own
trace), the background run performs no repository mutation — the commit
is never rolled back — and the interactive run's behaviour is entirely
independent of the background-push environment, so nothing can propagate
back to the interactive session. -/
theorem c8_push_failure_isolated (b : BgWorld) (h1 : b.spawn_git_push_ok = true)
    (h2 : b.wait_ok = true) (h3 : b.push_success = false) :
    run_background_process b
      = ([Event.spawn_git_push, Event.wait_child, Event.eprint "Error pushing code"],
         Except.ok ()) ∧
    (∀ ev ∈ (run_background_process b).1, repoMutation ev = false) ∧
    (∀ w : World, w.run_background = false → ∀ b2 : BgWorld,
      mainFn { w with bg := b2 } = mainFn w) := by
  have hrun : run_background_process b
      = ([Event.spawn_git_push, Event.wait_child, Event.eprint "Error pushing code"],
         Except.ok ()) := by
    simp [run_background_process, h1, h2, h3]
  refine ⟨hrun, ?_, ?_⟩
  · rw [hrun]
    intro ev hev
    simp at hev
    rcases hev with rfl | rfl | rfl <;> rfl
  · intro w hw b2
    unfold mainFn
    dsimp only
    rw [hw]
    rfl

theorem c8_witness :
    run_background_process ⟨true, true, false⟩
      = ([Event.spawn_git_push, Event.wait_child, Event.eprint "Error pushing code"],
         Except.ok ()) :=
  (c8_push_failure_isolated ⟨true, true, false⟩ rfl rfl rfl).1

/-- C9: in every interactive run the exit code is 0 on full success and
on "no changes to commit", and non-zero (1) on repository open failure,
staging failure (status-scan error), and commit failure. -/
theorem c9_exit_codes (w : World) (hbg : w.run_background = false) :
    (w.repo = none → (mainFn w).2 = Term.exit 1) ∧
    (∀ r e, w.repo = some r → w.scan = Except.error e →
      (mainFn w).2 = Term.exit 1) ∧
    (∀ r index1 evs1, w.repo = some r →
      stage w.scan r.index = (evs1, Outcome.ok (index1, [])) →
      (mainFn w).2 = Term.exit 0) ∧
    (∀ r index1 files evs1 s title e, w.repo = some r →
      stage w.scan r.index = (evs1, Outcome.ok (index1, files)) → files ≠ [] →
      (lines w.diff_stats { r with index := index1 }).2 = Except.ok s →
      readTitle w.stdin = some title →
      (commitFn w.cfg { r with index := index1 } title).2 = Except.error e →
      (mainFn w).2 = Term.exit 1) ∧
    (∀ r index1 files evs1 s title r2, w.repo = some r →
      stage w.scan r.index = (evs1, Outcome.ok (index1, files)) → files ≠ [] →
      (lines w.diff_stats { r with index := index1 }).2 = Except.ok s →
      readTitle w.stdin = some title →
      (commitFn w.cfg { r with index := index1 } title).2 = Except.ok r2 →
      w.spawn_ok = true →
      (mainFn w).2 = Term.exit 0) := by
  refine ⟨?_, ?_, ?_, ?_, ?_⟩
  · intro h
    simp [mainFn, hbg, h]
  · intro r e hr hscan
    simp [mainFn, hbg, hr, hscan, stage]
  · intro r index1 evs1 hr hs
    simp [mainFn, hbg, hr, hs, afterStage]
  · intro r index1 files evs1 s title e hr hs hf hl ht hc
    have hl2 : lines w.diff_stats { r with index := index1 }
        = ([Event.write_tree], Except.ok s) := by
      rw [← hl, ← lines_fst w.diff_stats { r with index := index1 }]
    have hc2 : commitFn w.cfg { r with index := index1 } title
        = ([Event.write_tree], Except.error e) := by
      rcases commitFn_shape w.cfg { r with index := index1 } title
        with ⟨e2, hsh⟩ | ⟨ps, hsh⟩
      · rw [hsh] at hc
        simp at hc
        rw [hsh, hc]
      · rw [hsh] at hc
        simp at hc
    simp [mainFn, hbg, hr, hs, afterStage, hf, hl2, ht, afterPrompt, hc2]
  · intro r index1 files evs1 s title r2 hr hs hf hl ht hc hsp
    have hl2 : lines w.diff_stats { r with index := index1 }
        = ([Event.write_tree], Except.ok s) := by
      rw [← hl, ← lines_fst w.diff_stats { r with index := index1 }]
    rcases commitFn_shape w.cfg { r with index := index1 } title
      with ⟨e2, hsh⟩ | ⟨ps, hsh⟩
    · rw [hsh] at hc
      simp at hc
    · simp [mainFn, hbg, hr, hs, afterStage, hf, hl2, ht, afterPrompt, hsh, hsp]

theorem c9_witness :
    (mainFn wNoRepo).2 = Term.exit 1 ∧
    (mainFn wNoChanges).2 = Term.exit 0 ∧
    (mainFn wOk).2 = Term.exit 0 :=
  ⟨(c9_exit_codes wNoRepo rfl).1 rfl,
   (c9_exit_codes wNoChanges rfl).2.2.1 repoInit [] [Event.index_write] rfl (by decide),
   (c9_exit_codes wOk rfl).2.2.2.2 repoInit ["a.txt"] [("a.txt", Marker.INDEX_NEW)]
     [Event.classified "a.txt" Marker.INDEX_NEW, Event.index_add "a.txt",
      Event.index_write]
     (1, 0) "msg" (commitResult ⟨["a.txt"], some 0, [⟨[], [], "init"⟩]⟩ "msg" [0])
     rfl (by decide) (by decide) rfl (by decide) rfl rfl⟩

end QuickCommit
